import Mathlib

/-!
# Verification of the inbound media normalization pipeline

Shallow embedding of the media classification and context-assembly code of
the repository (dingtalk media pipeline and shared file utilities), together
with theorems settling the specification claims about it.

Sources embedded:
* `file-utils` (shared module): `extractExtension`, `resolveFileCategory`,
  `resolveExtension` and the three lookup tables, translated line by line.
* `inbound-context.property.test.ts`: `assignMediaFieldsToContext`,
  translated line by line (both as a pure function and as an explicit-heap
  version that models the JavaScript object mutation discipline).
* `media.js` (`extractFileFromMessage`, `parseRichTextMessage`): the module
  itself is not part of the available sources, only its unit tests; those
  functions are modelled from the specification (see their doc comments).

JavaScript strings are modelled as Lean `String` (`toLowerCase` as
`Char.toLower` on each character, which agrees on ASCII data handled here);
JavaScript `undefined`/`null`-able values as `Option`; JS truthiness of a
string-or-null value as "present and non-empty".
-/

namespace OpenclawChina

/-- JS truthiness of a `string` value: truthy iff non-empty. -/
def strTruthy (s : String) : Bool := !(s == "")

/-- JS truthiness of a `string | null | undefined` value:
truthy iff present and non-empty. -/
def optStrTruthy : Option String → Bool
  | none => false
  | some s => strTruthy s

/-! ## Data model

Field-for-field translations of the TypeScript interfaces used by the
context-assembly code (`DownloadedFile`, `ExtractedFileInfo`, `MediaMsgType`
from `media.js` as used by the tests; `InboundContext` from `bot.js` as
described in the spec and exercised by the tests). -/

/-- `MediaMsgType = "picture" | "video" | "audio" | "file"`. -/
inductive MediaMsgType where
  | picture
  | video
  | audio
  | file
deriving DecidableEq, Repr

/-- `DownloadedFile { path, contentType, size, fileName? }`. -/
structure DownloadedFile where
  path : String
  contentType : String
  size : Int
  fileName : Option String := none
deriving DecidableEq, Repr

/-- `ExtractedFileInfo { downloadCode, msgType, fileName?, fileSize?,
duration?, recognition? }`. -/
structure ExtractedFileInfo where
  downloadCode : String
  msgType : MediaMsgType
  fileName : Option String := none
  fileSize : Option Int := none
  duration : Option Int := none
  recognition : Option String := none
deriving DecidableEq, Repr

/-- The canonical inbound context record. `Body`/`RawBody`/`CommandBody` are
plain strings; the media overlay fields are optional. The TypeScript
`InboundContext` type has no `MediaUrl`/`MediaUrls` members; the tests probe
them as dynamic properties of the record, so they are modelled here as
`Option` fields that are `none` on every value of the TypeScript type. -/
structure InboundContext where
  Body : String
  RawBody : String
  CommandBody : String
  MediaPath : Option String := none
  MediaType : Option String := none
  MediaPaths : Option (List String) := none
  MediaTypes : Option (List String) := none
  FileName : Option String := none
  FileSize : Option Int := none
  Transcript : Option String := none
  MediaUrl : Option String := none
  MediaUrls : Option (List String) := none
deriving DecidableEq, Repr

/-! ## `assignMediaFieldsToContext`

Line-by-line translation of the helper defined in
`inbound-context.property.test.ts` (lines 19-70), which mirrors the
implementation in `bot.ts`. The JS function clones the base context
(`const ctx = { ...inboundCtx }`) and then conditionally assigns fields of
the clone; here the clone is the starting record value and each assignment
is a record update. -/

/-- The `if (mediaBody) { ctx.Body = mediaBody; ctx.RawBody = mediaBody;
ctx.CommandBody = mediaBody; }` statement block (it occurs verbatim in both
media branches of the source). -/
def setMediaBody (ctx : InboundContext) (mediaBody : Option String) : InboundContext :=
  match mediaBody with
  | some b => if strTruthy b then { ctx with Body := b, RawBody := b, CommandBody := b } else ctx
  | none => ctx

/-- The `if (extractedFileInfo?.msgType === "file") { ... }` statement
block: copy `fileName` when truthy, copy `fileSize` when not undefined. -/
def setFileFields (ctx : InboundContext) (extractedFileInfo : Option ExtractedFileInfo) :
    InboundContext :=
  match extractedFileInfo with
  | some fi =>
    if fi.msgType = MediaMsgType.file then
      -- if (extractedFileInfo.fileName) { ctx.FileName = extractedFileInfo.fileName; }
      let ctx :=
        match fi.fileName with
        | some fn => if strTruthy fn then { ctx with FileName := some fn } else ctx
        | none => ctx
      -- if (extractedFileInfo.fileSize !== undefined) { ctx.FileSize = extractedFileInfo.fileSize; }
      match fi.fileSize with
      | some sz => { ctx with FileSize := some sz }
      | none => ctx
    else ctx
  | none => ctx

/-- The `if (extractedFileInfo?.msgType === "audio" &&
extractedFileInfo.recognition) { ctx.Transcript = ...; }` statement
block. -/
def setTranscriptField (ctx : InboundContext)
    (extractedFileInfo : Option ExtractedFileInfo) : InboundContext :=
  match extractedFileInfo with
  | some fi =>
    if fi.msgType = MediaMsgType.audio then
      match fi.recognition with
      | some r => if strTruthy r then { ctx with Transcript := some r } else ctx
      | none => ctx
    else ctx
  | none => ctx

/-- `assignMediaFieldsToContext(inboundCtx, downloadedMedia,
extractedFileInfo, downloadedRichTextImages, mediaBody)`: the source's
statement blocks (factored above) composed exactly in source order. -/
def assignMediaFieldsToContext (inboundCtx : InboundContext)
    (downloadedMedia : Option DownloadedFile)
    (extractedFileInfo : Option ExtractedFileInfo)
    (downloadedRichTextImages : List DownloadedFile)
    (mediaBody : Option String) : InboundContext :=
  -- const ctx = { ...inboundCtx };
  let ctx := inboundCtx
  -- if (downloadedMedia) { ... }
  let ctx :=
    match downloadedMedia with
    | none => ctx
    | some m =>
      -- ctx.MediaPath = downloadedMedia.path; ctx.MediaType = downloadedMedia.contentType;
      let ctx := { ctx with MediaPath := some m.path, MediaType := some m.contentType }
      setTranscriptField
        (setFileFields (setMediaBody ctx mediaBody) extractedFileInfo)
        extractedFileInfo
  -- if (downloadedRichTextImages.length > 0) { ... }
  if downloadedRichTextImages.length > 0 then
    -- ctx.MediaPaths = ...map(f => f.path); ctx.MediaTypes = ...map(f => f.contentType);
    let ctx := { ctx with
      MediaPaths := some (downloadedRichTextImages.map DownloadedFile.path),
      MediaTypes := some (downloadedRichTextImages.map DownloadedFile.contentType) }
    setMediaBody ctx mediaBody
  else ctx

/-! ### Heap model of the same function

To state the mutation/aliasing behavior of the JavaScript function (claim
about the `base` argument never being mutated), the same code is embedded a
second time over an explicit heap of context objects: references are `Nat`
addresses, `const ctx = { ...inboundCtx }` allocates a fresh cell holding a
shallow copy, and every assignment statement is a write to the fresh cell.
The caller's object is whatever cell `rBase` points to. -/

/-- A heap of `InboundContext` objects: `next` is the next fresh address,
`mem` the contents of each address. -/
structure HeapState where
  next : Nat
  mem : Nat → InboundContext

/-- Write the value `v` into cell `r`. -/
def writeAt (h : HeapState) (r : Nat) (v : InboundContext) : HeapState :=
  { h with mem := fun i => if i = r then v else h.mem i }

/-- Heap form of the `if (mediaBody) { ... }` statement block: the writes
target the cell `r`. -/
def setMediaBodyHeap (h : HeapState) (r : Nat) (mediaBody : Option String) : HeapState :=
  match mediaBody with
  | some b =>
    if strTruthy b then
      writeAt h r { h.mem r with Body := b, RawBody := b, CommandBody := b }
    else h
  | none => h

/-- Heap form of the `if (extractedFileInfo?.msgType === "file")` block. -/
def setFileFieldsHeap (h : HeapState) (r : Nat)
    (extractedFileInfo : Option ExtractedFileInfo) : HeapState :=
  match extractedFileInfo with
  | some fi =>
    if fi.msgType = MediaMsgType.file then
      let h :=
        match fi.fileName with
        | some fn =>
          if strTruthy fn then writeAt h r { h.mem r with FileName := some fn }
          else h
        | none => h
      match fi.fileSize with
      | some sz => writeAt h r { h.mem r with FileSize := some sz }
      | none => h
    else h
  | none => h

/-- Heap form of the `if (extractedFileInfo?.msgType === "audio" && ...)`
block. -/
def setTranscriptFieldHeap (h : HeapState) (r : Nat)
    (extractedFileInfo : Option ExtractedFileInfo) : HeapState :=
  match extractedFileInfo with
  | some fi =>
    if fi.msgType = MediaMsgType.audio then
      match fi.recognition with
      | some rec =>
        if strTruthy rec then writeAt h r { h.mem r with Transcript := some rec }
        else h
      | none => h
    else h
  | none => h

/-- `assignMediaFieldsToContext` over the explicit heap: clone the base
object into a fresh cell, then perform every conditional field assignment of
the source on that cell, returning the final heap and the reference to the
clone. -/
def assignMediaFieldsToContextHeap (h0 : HeapState) (rBase : Nat)
    (downloadedMedia : Option DownloadedFile)
    (extractedFileInfo : Option ExtractedFileInfo)
    (downloadedRichTextImages : List DownloadedFile)
    (mediaBody : Option String) : HeapState × Nat :=
  -- const ctx = { ...inboundCtx };  (fresh object, shallow copy)
  let rCtx := h0.next
  let h := writeAt { h0 with next := h0.next + 1 } rCtx (h0.mem rBase)
  -- if (downloadedMedia) { ... }
  let h :=
    match downloadedMedia with
    | none => h
    | some m =>
      let h := writeAt h rCtx
        { h.mem rCtx with MediaPath := some m.path, MediaType := some m.contentType }
      setTranscriptFieldHeap
        (setFileFieldsHeap (setMediaBodyHeap h rCtx mediaBody) rCtx extractedFileInfo)
        rCtx extractedFileInfo
  -- if (downloadedRichTextImages.length > 0) { ... }
  let h :=
    if downloadedRichTextImages.length > 0 then
      let h := writeAt h rCtx { h.mem rCtx with
        MediaPaths := some (downloadedRichTextImages.map DownloadedFile.path),
        MediaTypes := some (downloadedRichTextImages.map DownloadedFile.contentType) }
      setMediaBodyHeap h rCtx mediaBody
    else h
  (h, rCtx)

/-! ## File utilities (`file-utils`)

Line-by-line translation of the shared file-utilities module:
`FileCategory`, the three lookup tables, `extractExtension`,
`resolveFileCategory` and `resolveExtension`. TypeScript
`Record<string, T>` literals become association lists looked up with
`List.lookup` (the literals have pairwise distinct keys, so first-match
lookup is the record access). -/

/-- `FileCategory`: the closed 7-value enumeration. -/
inductive FileCategory where
  | image
  | audio
  | video
  | document
  | archive
  | code
  | other
deriving DecidableEq, Repr

/-- `MIME_TO_EXTENSION` table. -/
def MIME_TO_EXTENSION : List (String × String) :=
  [ ("image/jpeg", ".jpg"),
    ("image/png", ".png"),
    ("image/gif", ".gif"),
    ("image/webp", ".webp"),
    ("image/bmp", ".bmp"),
    ("audio/mpeg", ".mp3"),
    ("audio/wav", ".wav"),
    ("audio/ogg", ".ogg"),
    ("audio/amr", ".amr"),
    ("audio/x-m4a", ".m4a"),
    ("video/mp4", ".mp4"),
    ("video/quicktime", ".mov"),
    ("video/x-msvideo", ".avi"),
    ("video/webm", ".webm"),
    ("application/pdf", ".pdf"),
    ("application/msword", ".doc"),
    ("application/vnd.openxmlformats-officedocument.wordprocessingml.document", ".docx"),
    ("application/vnd.ms-excel", ".xls"),
    ("application/vnd.openxmlformats-officedocument.spreadsheetml.sheet", ".xlsx"),
    ("application/vnd.ms-powerpoint", ".ppt"),
    ("application/vnd.openxmlformats-officedocument.presentationml.presentation", ".pptx"),
    ("application/rtf", ".rtf"),
    ("application/vnd.oasis.opendocument.text", ".odt"),
    ("application/vnd.oasis.opendocument.spreadsheet", ".ods"),
    ("text/plain", ".txt"),
    ("text/markdown", ".md"),
    ("text/csv", ".csv"),
    ("application/zip", ".zip"),
    ("application/x-rar-compressed", ".rar"),
    ("application/vnd.rar", ".rar"),
    ("application/x-7z-compressed", ".7z"),
    ("application/x-tar", ".tar"),
    ("application/gzip", ".gz"),
    ("application/x-gzip", ".gz"),
    ("application/x-bzip2", ".bz2"),
    ("application/json", ".json"),
    ("application/xml", ".xml"),
    ("text/xml", ".xml"),
    ("text/html", ".html"),
    ("text/css", ".css"),
    ("text/javascript", ".js"),
    ("application/javascript", ".js"),
    ("text/x-python", ".py"),
    ("text/x-java-source", ".java"),
    ("text/x-c", ".c"),
    ("text/x-yaml", ".yaml"),
    ("application/x-yaml", ".yaml") ]

/-- `CATEGORY_BY_MIME` table. -/
def CATEGORY_BY_MIME : List (String × FileCategory) :=
  [ ("application/pdf", FileCategory.document),
    ("application/msword", FileCategory.document),
    ("application/vnd.openxmlformats-officedocument.wordprocessingml.document", FileCategory.document),
    ("application/vnd.ms-excel", FileCategory.document),
    ("application/vnd.openxmlformats-officedocument.spreadsheetml.sheet", FileCategory.document),
    ("application/vnd.ms-powerpoint", FileCategory.document),
    ("application/vnd.openxmlformats-officedocument.presentationml.presentation", FileCategory.document),
    ("application/rtf", FileCategory.document),
    ("application/vnd.oasis.opendocument.text", FileCategory.document),
    ("application/vnd.oasis.opendocument.spreadsheet", FileCategory.document),
    ("text/plain", FileCategory.document),
    ("text/markdown", FileCategory.document),
    ("text/csv", FileCategory.document),
    ("application/zip", FileCategory.archive),
    ("application/x-rar-compressed", FileCategory.archive),
    ("application/vnd.rar", FileCategory.archive),
    ("application/x-7z-compressed", FileCategory.archive),
    ("application/x-tar", FileCategory.archive),
    ("application/gzip", FileCategory.archive),
    ("application/x-gzip", FileCategory.archive),
    ("application/x-bzip2", FileCategory.archive),
    ("application/json", FileCategory.code),
    ("application/xml", FileCategory.code),
    ("text/xml", FileCategory.code),
    ("text/html", FileCategory.code),
    ("text/css", FileCategory.code),
    ("text/javascript", FileCategory.code),
    ("application/javascript", FileCategory.code),
    ("text/x-python", FileCategory.code),
    ("text/x-java-source", FileCategory.code),
    ("text/x-c", FileCategory.code),
    ("text/x-yaml", FileCategory.code),
    ("application/x-yaml", FileCategory.code) ]

/-- `CATEGORY_BY_EXTENSION` table. -/
def CATEGORY_BY_EXTENSION : List (String × FileCategory) :=
  [ (".jpg", FileCategory.image),
    (".jpeg", FileCategory.image),
    (".png", FileCategory.image),
    (".gif", FileCategory.image),
    (".webp", FileCategory.image),
    (".bmp", FileCategory.image),
    (".mp3", FileCategory.audio),
    (".wav", FileCategory.audio),
    (".ogg", FileCategory.audio),
    (".m4a", FileCategory.audio),
    (".amr", FileCategory.audio),
    (".mp4", FileCategory.video),
    (".mov", FileCategory.video),
    (".avi", FileCategory.video),
    (".mkv", FileCategory.video),
    (".webm", FileCategory.video),
    (".pdf", FileCategory.document),
    (".doc", FileCategory.document),
    (".docx", FileCategory.document),
    (".txt", FileCategory.document),
    (".md", FileCategory.document),
    (".rtf", FileCategory.document),
    (".odt", FileCategory.document),
    (".xls", FileCategory.document),
    (".xlsx", FileCategory.document),
    (".csv", FileCategory.document),
    (".ods", FileCategory.document),
    (".ppt", FileCategory.document),
    (".pptx", FileCategory.document),
    (".zip", FileCategory.archive),
    (".rar", FileCategory.archive),
    (".7z", FileCategory.archive),
    (".tar", FileCategory.archive),
    (".gz", FileCategory.archive),
    (".bz2", FileCategory.archive),
    (".py", FileCategory.code),
    (".js", FileCategory.code),
    (".ts", FileCategory.code),
    (".jsx", FileCategory.code),
    (".tsx", FileCategory.code),
    (".java", FileCategory.code),
    (".cpp", FileCategory.code),
    (".c", FileCategory.code),
    (".go", FileCategory.code),
    (".rs", FileCategory.code),
    (".json", FileCategory.code),
    (".xml", FileCategory.code),
    (".yaml", FileCategory.code),
    (".yml", FileCategory.code),
    (".html", FileCategory.code),
    (".css", FileCategory.code) ]

/-- `fileName.lastIndexOf(".")`, on the character list of the name:
index of the last occurrence of `c`, or `none` for JavaScript's `-1`. -/
def lastIndexOfChar (c : Char) : List Char → Option Nat
  | [] => none
  | x :: xs =>
    match lastIndexOfChar c xs with
    | some i => some (i + 1)
    | none => if x = c then some 0 else none

/-- `extractExtension(fileName)`: `lastIndexOf(".")`, then the empty string
when there is no dot or the dot is the final character, else
`fileName.slice(lastDot).toLowerCase()`. -/
def extractExtension (fileName : String) : String :=
  match lastIndexOfChar '.' fileName.data with
  | none => ""
  | some lastDot =>
    if lastDot = fileName.data.length - 1 then ""
    else String.mk ((fileName.data.drop lastDot).map Char.toLower)

/-- `s.trim()` on the character list: strip leading and trailing
whitespace. -/
def trimChars (cs : List Char) : List Char :=
  ((cs.dropWhile Char.isWhitespace).reverse.dropWhile Char.isWhitespace).reverse

/-- `contentType.split(";")[0].trim().toLowerCase()` — the content-type
normalization performed by both resolvers. `split(";")[0]` is the prefix of
the string up to the first `';'`. -/
def normalizeMime (contentType : String) : String :=
  String.mk ((trimChars (contentType.data.takeWhile (· ≠ ';'))).map Char.toLower)

/-- `s.startsWith(p)` modelled on the character lists. -/
def startsWithStr (s p : String) : Bool :=
  p.data.isPrefixOf s.data

/-- `resolveFileCategory(contentType, fileName?)`. -/
def resolveFileCategory (contentType : String) (fileName : Option String := none) :
    FileCategory :=
  -- const mimeType = contentType.split(";")[0].trim().toLowerCase();
  let mimeType := normalizeMime contentType
  if startsWithStr mimeType "image/" then FileCategory.image
  else if startsWithStr mimeType "audio/" then FileCategory.audio
  else if startsWithStr mimeType "video/" then FileCategory.video
  else
    match List.lookup mimeType CATEGORY_BY_MIME with
    | some c => c
    | none =>
      -- if (fileName) { const ext = extractExtension(fileName); if (ext && ext in ...) ... }
      match fileName with
      | some fn =>
        if strTruthy fn then
          let ext := extractExtension fn
          if strTruthy ext then
            match List.lookup ext CATEGORY_BY_EXTENSION with
            | some c => c
            | none => FileCategory.other
          else FileCategory.other
        else FileCategory.other
      | none => FileCategory.other

/-- `resolveExtension(contentType, fileName?)`. The early `return ext` of the
source is encoded by first computing the optional filename extension and
falling through to the MIME branch when it is absent. -/
def resolveExtension (contentType : String) (fileName : Option String := none) :
    String :=
  -- if (fileName) { const ext = extractExtension(fileName); if (ext) return ext; }
  let fromName : Option String :=
    match fileName with
    | some fn =>
      if strTruthy fn then
        let ext := extractExtension fn
        if strTruthy ext then some ext else none
      else none
    | none => none
  match fromName with
  | some ext => ext
  | none =>
    -- const mimeType = contentType.split(";")[0].trim().toLowerCase();
    let mimeType := normalizeMime contentType
    match List.lookup mimeType MIME_TO_EXTENSION with
    | some e => e
    | none => ".bin"

/-! ## Specification-side descriptions of the classifier

Independent formalizations of the spec's wording, to be compared with the
source functions above. Filename-extension extraction is described by the
spec as "the substring from the last `.` to end of name, lower-cased; a name
with no `.` or a trailing `.` yields no extension"; here it is computed by a
right-to-left scan, structurally different from the source's
`lastIndexOf`-and-slice. -/

/-- The characters strictly after the last `'.'` of the list, or `none` when
the list has no `'.'`. -/
def afterLastDot : List Char → Option (List Char)
  | [] => none
  | c :: cs =>
    match afterLastDot cs with
    | some r => some r
    | none => if c = '.' then some cs else none

/-- The filename's own extension as the spec words it: the substring from
the last `'.'` to the end of the name, lower-cased; `none` for a name with
no `'.'` or with a trailing `'.'`. -/
def specExtOfName (fileName : String) : Option String :=
  match afterLastDot fileName.data with
  | none => none
  | some [] => none
  | some rest => some (String.mk (('.' :: rest).map Char.toLower))

/-- The claim's content-type normalization for `resolveFileCategory`:
truncate at the first `';'` and lowercase — with no trimming of surrounding
whitespace. -/
def claimNormalizeMime (contentType : String) : String :=
  String.mk ((contentType.data.takeWhile (· ≠ ';')).map Char.toLower)

/-- `resolveFileCategory` as claim C8 words it: prefix match, then exact
MIME table, then filename-extension table, then `other`, over
`claimNormalizeMime` (no trim). -/
def claimResolveFileCategory (contentType : String) (fileName : Option String) :
    FileCategory :=
  let m := claimNormalizeMime contentType
  if startsWithStr m "image/" then FileCategory.image
  else if startsWithStr m "audio/" then FileCategory.audio
  else if startsWithStr m "video/" then FileCategory.video
  else
    match List.lookup m CATEGORY_BY_MIME with
    | some c => c
    | none =>
      match fileName with
      | some fn =>
        match specExtOfName fn with
        | some e =>
          match List.lookup e CATEGORY_BY_EXTENSION with
          | some c => c
          | none => FileCategory.other
        | none => FileCategory.other
      | none => FileCategory.other

/-- The amended form of C8's description: identical to
`claimResolveFileCategory` except that the normalization also trims
surrounding whitespace, i.e. it uses `normalizeMime`. -/
def claimResolveFileCategoryTrimmed (contentType : String) (fileName : Option String) :
    FileCategory :=
  let m := normalizeMime contentType
  if startsWithStr m "image/" then FileCategory.image
  else if startsWithStr m "audio/" then FileCategory.audio
  else if startsWithStr m "video/" then FileCategory.video
  else
    match List.lookup m CATEGORY_BY_MIME with
    | some c => c
    | none =>
      match fileName with
      | some fn =>
        match specExtOfName fn with
        | some e =>
          match List.lookup e CATEGORY_BY_EXTENSION with
          | some c => c
          | none => FileCategory.other
        | none => FileCategory.other
      | none => FileCategory.other

/-! ## Concrete fixtures used by witnesses and counterexamples -/

/-- A plain baseline context with no media fields set, as produced by
`buildInboundContext`. -/
def ctxA : InboundContext := { Body := "hello", RawBody := "hello", CommandBody := "hello" }

/-- A concrete downloaded media file. -/
def fileA : DownloadedFile :=
  { path := "/tmp/dingtalk-file-a", contentType := "image/png", size := 4 }

/-- A concrete `file`-type extracted descriptor with both name and size. -/
def fileInfoC : ExtractedFileInfo :=
  { downloadCode := "file-code-222", msgType := MediaMsgType.file,
    fileName := some "a.pdf", fileSize := some 10 }

/-- A `file`-type descriptor whose `fileName` is present but empty. -/
def fileInfoEmptyName : ExtractedFileInfo :=
  { downloadCode := "file-code-223", msgType := MediaMsgType.file,
    fileName := some "", fileSize := none }

/-- A one-cell heap whose only object is `ctxA`. -/
def heap0 : HeapState := { next := 1, mem := fun _ => ctxA }

/-! ## `media.js`: message extractor and rich-text parser (spec-modelled)

The module `media.js` (`extractFileFromMessage`, `parseRichTextMessage`) is
not among the available sources; only its unit tests are. The two functions
are therefore modelled from the specification (sections 4.2, 4.3 and the
raw-message shape contract), with the field names the tests exercise
(`msgtype`, `content`, `richText`, the download-code fallback chains).
JavaScript values are modelled by `JsValue`; `JSON.parse` — whose failures
the code catches — is a parameter `parse` returning `none` on failure, so
the requirement "never throws" is represented by the functions being total
Lean functions into `Option`, with every failure path producing `none`. -/

/-- A JavaScript value: the loosely-typed payloads the parsers receive. -/
inductive JsValue where
  | null
  | undef
  | bool (b : Bool)
  | num (n : Int)
  | str (s : String)
  | arr (xs : List JsValue)
  | obj (fields : List (String × JsValue))

/-- Property read `v[k]`: the first binding of `k` on an object, and
`undefined` on a missing key or a non-object (the code guards these
accesses, per the never-throw contract). -/
def getField (v : JsValue) (k : String) : JsValue :=
  match v with
  | JsValue.obj fields =>
    match fields.find? (fun p => p.1 == k) with
    | some p => p.2
    | none => JsValue.undef
  | _ => JsValue.undef

/-- A field read that is used as a truthy string (download codes): `some`
only for a present non-empty string. -/
def strField (v : JsValue) (k : String) : Option String :=
  match getField v k with
  | JsValue.str s => if strTruthy s then some s else none
  | _ => none

/-- A string field carried through verbatim when present. -/
def strFieldAny (v : JsValue) (k : String) : Option String :=
  match getField v k with
  | JsValue.str s => some s
  | _ => none

/-- A numeric field carried through verbatim when present. -/
def intField (v : JsValue) (k : String) : Option Int :=
  match getField v k with
  | JsValue.num n => some n
  | _ => none

/-- The supported single-media message tags. -/
def parseMediaMsgType (tag : String) : Option MediaMsgType :=
  if tag = "picture" then some MediaMsgType.picture
  else if tag = "video" then some MediaMsgType.video
  else if tag = "audio" then some MediaMsgType.audio
  else if tag = "file" then some MediaMsgType.file
  else none

/-- Modelled from the spec: `extractFileFromMessage(raw)` of `media.js`
(only its tests are among the sources). Accepts only the four media tags;
the `content` payload may be a record or a serialized string (a parse
failure yields `null`); per-type download-code fallback chains
(`downloadCode` then `pictureDownloadCode`/`videoDownloadCode`); no usable
code yields `null`; type-specific extras are carried through verbatim when
present. -/
def extractFileFromMessage (parse : String → Option JsValue) (raw : JsValue) :
    Option ExtractedFileInfo :=
  match raw with
  | JsValue.obj _ =>
    match getField raw "msgtype" with
    | JsValue.str tag =>
      match parseMediaMsgType tag with
      | none => none
      | some mt =>
        let content :=
          match getField raw "content" with
          | JsValue.str s => parse s
          | JsValue.obj fields => some (JsValue.obj fields)
          | _ => none
        match content with
        | none => none
        | some c =>
          let code :=
            match mt with
            | MediaMsgType.picture =>
              match strField c "downloadCode" with
              | some dc => some dc
              | none => strField c "pictureDownloadCode"
            | MediaMsgType.video =>
              match strField c "downloadCode" with
              | some dc => some dc
              | none => strField c "videoDownloadCode"
            | MediaMsgType.audio => strField c "downloadCode"
            | MediaMsgType.file => strField c "downloadCode"
          match code with
          | none => none
          | some dc =>
            some { downloadCode := dc,
                   msgType := mt,
                   fileName :=
                     if mt = MediaMsgType.file then strFieldAny c "fileName" else none,
                   fileSize :=
                     if mt = MediaMsgType.file then intField c "fileSize" else none,
                   duration :=
                     if mt = MediaMsgType.video ∨ mt = MediaMsgType.audio then
                       intField c "duration"
                     else none,
                   recognition :=
                     if mt = MediaMsgType.audio then strFieldAny c "recognition"
                     else none }
    | _ => none
  | _ => none

/-- `RichTextParseResult { textParts, imageCodes, mentions }`. -/
structure RichTextParseResult where
  textParts : List String
  imageCodes : List String
  mentions : List String
deriving DecidableEq, Repr

/-- Coerce a value appended as text/mention payload. -/
def strOf : JsValue → String
  | JsValue.str s => s
  | _ => ""

/-- One rich-text element: `picture` appends a resolvable code (silently
skipped when none resolves), `at` appends the user id, anything else —
including an element with no explicit tag — is treated as text. -/
def processRichTextElement (acc : RichTextParseResult) (e : JsValue) :
    RichTextParseResult :=
  match getField e "type" with
  | JsValue.str "picture" =>
    match
      (match strField e "downloadCode" with
       | some c => some c
       | none => strField e "pictureDownloadCode") with
    | some c => { acc with imageCodes := acc.imageCodes ++ [c] }
    | none => acc
  | JsValue.str "at" =>
    { acc with mentions := acc.mentions ++ [strOf (getField e "userId")] }
  | _ => { acc with textParts := acc.textParts ++ [strOf (getField e "text")] }

/-- Modelled from the spec: `parseRichTextMessage(raw)` of `media.js` (only
its tests are among the sources). Applies only to the `richText` tag; the
payload and, independently, the element list may each be a structure or a
serialized string (a parse failure at either boundary yields `null`); an
empty element list yields `null`. -/
def parseRichTextMessage (parse : String → Option JsValue) (raw : JsValue) :
    Option RichTextParseResult :=
  match raw with
  | JsValue.obj _ =>
    match getField raw "msgtype" with
    | JsValue.str tag =>
      if tag = "richText" then
        let content :=
          match getField raw "content" with
          | JsValue.str s => parse s
          | JsValue.obj fields => some (JsValue.obj fields)
          | _ => none
        match content with
        | none => none
        | some c =>
          let elems :=
            match getField c "richText" with
            | JsValue.arr xs => some xs
            | JsValue.str s =>
              match parse s with
              | some (JsValue.arr xs) => some xs
              | _ => none
            | _ => none
          match elems with
          | none => none
          | some xs =>
            if xs.isEmpty then none
            else some (xs.foldl processRichTextElement ⟨[], [], []⟩)
      else none
    | _ => none
  | _ => none

/-- A parse function that rejects every input, for witnesses about malformed
serialized strings. -/
def parseFail : String → Option JsValue := fun _ => none

/-! ## Theorems -/

example :
    (assignMediaFieldsToContext
      { Body := "t", RawBody := "t", CommandBody := "t" }
      (some { path := "/tmp/a", contentType := "image/png", size := 3 })
      none [] (some "[pic]")).MediaPath = some "/tmp/a" := by decide

example : resolveFileCategory "application/octet-stream" (some "song.mp3") =
    FileCategory.audio := by decide
example : resolveExtension "application/octet-stream" (some "song.mp3") = ".mp3" := by
  decide
example : resolveExtension "image/jpeg; charset=utf-8" = ".jpg" := by decide
example : resolveFileCategory "text/plain; charset=utf-8" = FileCategory.document := by
  decide
example : resolveExtension "image/png" (some "custom.jpeg") = ".jpeg" := by decide
example : resolveFileCategory "application/octet-stream" (some "file.xyz") =
    FileCategory.other := by decide
example : resolveExtension "image/jpeg" (some "photo") = ".jpg" := by decide
example : resolveExtension "image/png" (some ".") = ".png" := by decide
example : resolveExtension "image/png" (some "ABC.JPG") = ".jpg" := by decide
example : resolveFileCategory " image/png" = FileCategory.image := by decide

/-! ### Equivalence of the two extension-extraction descriptions -/

theorem lastIndexOfChar_eq_none (c : Char) :
    ∀ cs : List Char, c ∉ cs → lastIndexOfChar c cs = none := by
  intro cs
  induction cs with
  | nil => intro _; rfl
  | cons x xs ih =>
    intro h
    simp only [List.mem_cons, not_or] at h
    have hx : ¬ x = c := fun hxc => h.1 hxc.symm
    simp [lastIndexOfChar, ih h.2, hx]

theorem lastIndexOfChar_drop {c : Char} :
    ∀ {cs : List Char} {i : Nat}, lastIndexOfChar c cs = some i →
      i < cs.length ∧ cs.drop i = c :: cs.drop (i + 1) := by
  intro cs
  induction cs with
  | nil => intro i h; simp [lastIndexOfChar] at h
  | cons x xs ih =>
    intro i h
    simp only [lastIndexOfChar] at h
    cases hxs : lastIndexOfChar c xs with
    | some j =>
      rw [hxs] at h
      simp only [Option.some.injEq] at h
      subst h
      obtain ⟨hlt, hdrop⟩ := ih hxs
      refine ⟨by simpa using Nat.succ_lt_succ hlt, ?_⟩
      simpa [List.drop] using hdrop
    | none =>
      rw [hxs] at h
      by_cases hx : x = c
      · simp only [if_pos hx] at h
        simp only [Option.some.injEq] at h
        subst h
        subst hx
        simp
      · simp [if_neg hx] at h

theorem afterLastDot_eq (cs : List Char) :
    afterLastDot cs = (lastIndexOfChar '.' cs).map (fun i => cs.drop (i + 1)) := by
  induction cs with
  | nil => rfl
  | cons x xs ih =>
    simp only [afterLastDot, lastIndexOfChar, ih]
    cases hxs : lastIndexOfChar '.' xs with
    | some j => simp [List.drop]
    | none =>
      by_cases hx : x = '.'
      · simp [if_pos hx]
      · simp [if_neg hx]

theorem extractExtension_eq_spec (fn : String) :
    extractExtension fn = (specExtOfName fn).getD "" := by
  unfold extractExtension specExtOfName
  rw [afterLastDot_eq]
  cases h : lastIndexOfChar '.' fn.data with
  | none => simp
  | some i =>
    obtain ⟨hlt, hdrop⟩ := lastIndexOfChar_drop h
    simp only [Option.map_some']
    by_cases hi : i = fn.data.length - 1
    · have hnil : fn.data.drop (i + 1) = [] := by
        apply List.drop_eq_nil_of_le
        omega
      rw [if_pos hi, hnil]
      rfl
    · rw [if_neg hi]
      have hcons : fn.data.drop (i + 1) ≠ [] := by
        have hgt : fn.data.length - (i + 1) > 0 := by omega
        intro hnil
        rw [← List.length_drop] at hgt
        rw [hnil] at hgt
        simp at hgt
      cases hrest : fn.data.drop (i + 1) with
      | nil => exact absurd hrest hcons
      | cons y ys =>
        rw [hrest] at hdrop
        rw [hdrop]
        rfl

theorem specExtOfName_some_ne {fn : String} {e : String}
    (h : specExtOfName fn = some e) : e ≠ "" ∧ fn ≠ "" := by
  unfold specExtOfName at h
  cases hald : afterLastDot fn.data with
  | none => rw [hald] at h; simp at h
  | some rest =>
    rw [hald] at h
    cases rest with
    | nil => simp at h
    | cons y ys =>
      simp only [Option.some.injEq] at h
      constructor
      · intro he
        rw [← h] at he
        have : (String.mk (('.' :: y :: ys).map Char.toLower)).data = [] :=
          congrArg String.data he
        simp at this
      · intro hfn
        rw [hfn] at hald
        simp [afterLastDot] at hald

example : specExtOfName "photo.JPG" = some ".jpg" := by decide
example : specExtOfName ".gitignore" = some ".gitignore" := by decide
example : specExtOfName "." = none := by decide
example : specExtOfName "name." = none := by decide
example : specExtOfName "noext" = none := by decide

/-! ## Statement-block spec lemmas

Closed forms for the three statement blocks, from which every claim about
`assignMediaFieldsToContext` follows by rewriting. -/

theorem setMediaBody_spec (ctx : InboundContext) (mb : Option String) :
    setMediaBody ctx mb =
      { ctx with
        Body := if optStrTruthy mb then mb.getD "" else ctx.Body,
        RawBody := if optStrTruthy mb then mb.getD "" else ctx.RawBody,
        CommandBody := if optStrTruthy mb then mb.getD "" else ctx.CommandBody } := by
  cases mb with
  | none => rfl
  | some b =>
    simp only [setMediaBody, optStrTruthy, Option.getD]
    split_ifs <;> rfl

theorem setFileFields_none (ctx : InboundContext) : setFileFields ctx none = ctx := rfl

theorem setFileFields_some (ctx : InboundContext) (fi : ExtractedFileInfo) :
    setFileFields ctx (some fi) =
      { ctx with
        FileName :=
          if fi.msgType = MediaMsgType.file ∧ optStrTruthy fi.fileName then fi.fileName
          else ctx.FileName,
        FileSize :=
          if fi.msgType = MediaMsgType.file ∧ fi.fileSize.isSome then fi.fileSize
          else ctx.FileSize } := by
  obtain ⟨dc, mt, f1, f2, f3, f4⟩ := fi
  simp only [setFileFields]
  by_cases hmt : mt = MediaMsgType.file
  · subst hmt
    rcases f1 with _ | fn <;> rcases f2 with _ | sz <;>
      simp [optStrTruthy] <;> split_ifs <;> simp_all
  · rcases f1 with _ | fn <;> rcases f2 with _ | sz <;> simp [hmt]

theorem setTranscriptField_none (ctx : InboundContext) :
    setTranscriptField ctx none = ctx := rfl

theorem setTranscriptField_some (ctx : InboundContext) (fi : ExtractedFileInfo) :
    setTranscriptField ctx (some fi) =
      { ctx with
        Transcript :=
          if fi.msgType = MediaMsgType.audio ∧ optStrTruthy fi.recognition then
            fi.recognition
          else ctx.Transcript } := by
  obtain ⟨dc, mt, f1, f2, f3, f4⟩ := fi
  simp only [setTranscriptField]
  by_cases hmt : mt = MediaMsgType.audio
  · subst hmt
    rcases f4 with _ | rec <;> simp [optStrTruthy] <;> split_ifs <;> simp_all
  · rcases f4 with _ | rec <;> simp [hmt]

/-! ## Claims about `assignMediaFieldsToContext` -/

/-- C1: for every base context (a value of the `InboundContext` type, hence
with no `MediaUrl`/`MediaUrls` member) and every combination of the other
four arguments, the returned record has neither `MediaUrl` nor `MediaUrls`
set. -/
theorem claim1_no_media_urls (base : InboundContext) (dm : Option DownloadedFile)
    (efi : Option ExtractedFileInfo) (imgs : List DownloadedFile) (mb : Option String)
    (h1 : base.MediaUrl = none) (h2 : base.MediaUrls = none) :
    (assignMediaFieldsToContext base dm efi imgs mb).MediaUrl = none ∧
    (assignMediaFieldsToContext base dm efi imgs mb).MediaUrls = none := by
  unfold assignMediaFieldsToContext
  rcases dm with _ | m <;> rcases efi with _ | fi <;>
    simp only [setMediaBody_spec, setFileFields_none, setFileFields_some,
      setTranscriptField_none, setTranscriptField_some] <;>
    split_ifs <;> simp_all

theorem claim1_no_media_urls_witness :
    ctxA.MediaUrl = none ∧ ctxA.MediaUrls = none ∧
    ((assignMediaFieldsToContext ctxA (some fileA) (some fileInfoC) [fileA]
        (some "[media]")).MediaUrl = none ∧
      (assignMediaFieldsToContext ctxA (some fileA) (some fileInfoC) [fileA]
        (some "[media]")).MediaUrls = none) :=
  ⟨rfl, rfl,
    claim1_no_media_urls ctxA (some fileA) (some fileInfoC) [fileA] (some "[media]")
      rfl rfl⟩

/-! Frame lemmas: each heap statement block writes only to the cell it is
given. -/

theorem heapMem_ite (c : Prop) [Decidable c] (a b : HeapState) (j : Nat) :
    (if c then a else b).mem j = if c then a.mem j else b.mem j := by
  split_ifs <;> rfl

theorem writeAt_mem_ne (h : HeapState) (r : Nat) (v : InboundContext) {j : Nat}
    (hj : j ≠ r) : (writeAt h r v).mem j = h.mem j := by
  simp [writeAt, hj]

theorem setMediaBodyHeap_mem_ne (h : HeapState) (r : Nat) (mb : Option String)
    {j : Nat} (hj : j ≠ r) : (setMediaBodyHeap h r mb).mem j = h.mem j := by
  cases mb with
  | none => rfl
  | some b =>
    simp only [setMediaBodyHeap]
    split_ifs <;> simp [writeAt, hj]

theorem setFileFieldsHeap_mem_ne (h : HeapState) (r : Nat)
    (efi : Option ExtractedFileInfo) {j : Nat} (hj : j ≠ r) :
    (setFileFieldsHeap h r efi).mem j = h.mem j := by
  rcases efi with _ | ⟨dc, mt, f1, f2, f3, f4⟩
  · rfl
  · simp only [setFileFieldsHeap, writeAt]
    rcases f1 with _ | fn <;> rcases f2 with _ | sz <;> split_ifs <;>
      simp_all [hj, heapMem_ite]

theorem setTranscriptFieldHeap_mem_ne (h : HeapState) (r : Nat)
    (efi : Option ExtractedFileInfo) {j : Nat} (hj : j ≠ r) :
    (setTranscriptFieldHeap h r efi).mem j = h.mem j := by
  rcases efi with _ | ⟨dc, mt, f1, f2, f3, f4⟩
  · rfl
  · simp only [setTranscriptFieldHeap, writeAt]
    rcases f4 with _ | rec <;> split_ifs <;> simp_all [hj, heapMem_ite]

/-- C2: the function never mutates the object passed as `base`: in the heap
model, after the call the cell of the base object holds exactly its original
value, and the returned reference is a distinct fresh object. -/
theorem claim2_base_unchanged (h0 : HeapState) (rBase : Nat)
    (dm : Option DownloadedFile) (efi : Option ExtractedFileInfo)
    (imgs : List DownloadedFile) (mb : Option String)
    (hvalid : rBase < h0.next) :
    (assignMediaFieldsToContextHeap h0 rBase dm efi imgs mb).1.mem rBase =
      h0.mem rBase ∧
    (assignMediaFieldsToContextHeap h0 rBase dm efi imgs mb).2 ≠ rBase := by
  have hne : rBase ≠ h0.next := Nat.ne_of_lt hvalid
  constructor
  · unfold assignMediaFieldsToContextHeap
    rcases dm with _ | m <;> split_ifs <;>
      simp [setMediaBodyHeap_mem_ne _ _ _ hne, setFileFieldsHeap_mem_ne _ _ _ hne,
        setTranscriptFieldHeap_mem_ne _ _ _ hne, writeAt_mem_ne _ _ _ hne]
  · exact fun hc => hne hc.symm

theorem claim2_base_unchanged_witness :
    0 < heap0.next ∧
    ((assignMediaFieldsToContextHeap heap0 0 (some fileA) (some fileInfoC) [] none).1.mem 0 =
        heap0.mem 0 ∧
      (assignMediaFieldsToContextHeap heap0 0 (some fileA) (some fileInfoC) [] none).2 ≠ 0) :=
  ⟨by decide,
    claim2_base_unchanged heap0 0 (some fileA) (some fileInfoC) [] none (by decide)⟩

/-- C3 counterexample: the file/audio overlays are NOT gated on
`extractedFileInfo` alone. With `downloadedMedia` absent, a `file`
descriptor with `fileName` present leaves `FileName` unset; and even inside
the media branch a present-but-empty `fileName` is not copied. -/
theorem claim3_counterexample :
    fileInfoC.msgType = MediaMsgType.file ∧
    fileInfoC.fileName = some "a.pdf" ∧
    (assignMediaFieldsToContext ctxA none (some fileInfoC) [] none).FileName = none ∧
    fileInfoEmptyName.msgType = MediaMsgType.file ∧
    fileInfoEmptyName.fileName = some "" ∧
    (assignMediaFieldsToContext ctxA (some fileA) (some fileInfoEmptyName) [] none).FileName =
      none := by
  decide

/-- C3 (amended): the `extractedFileInfo` overlays run only inside the
`downloadedMedia` branch. When `downloadedMedia` is present, `FileName` is
set exactly when the descriptor is a `file` whose `fileName` is present and
non-empty, `FileSize` exactly when it is a `file` whose `fileSize` is
present (independently of the name), and `Transcript` exactly when it is an
`audio` whose `recognition` is present and non-empty — with no placeholder
otherwise. When `downloadedMedia` or `extractedFileInfo` is absent, none of
the three fields is touched. -/
theorem claim3_overlays_gated_by_media (base : InboundContext) (m : DownloadedFile)
    (fi : ExtractedFileInfo) (imgs : List DownloadedFile) (mb : Option String) :
    ((assignMediaFieldsToContext base (some m) (some fi) imgs mb).FileName =
      if fi.msgType = MediaMsgType.file ∧ optStrTruthy fi.fileName then fi.fileName
      else base.FileName) ∧
    ((assignMediaFieldsToContext base (some m) (some fi) imgs mb).FileSize =
      if fi.msgType = MediaMsgType.file ∧ fi.fileSize.isSome then fi.fileSize
      else base.FileSize) ∧
    ((assignMediaFieldsToContext base (some m) (some fi) imgs mb).Transcript =
      if fi.msgType = MediaMsgType.audio ∧ optStrTruthy fi.recognition then fi.recognition
      else base.Transcript) ∧
    ((assignMediaFieldsToContext base none (some fi) imgs mb).FileName = base.FileName ∧
      (assignMediaFieldsToContext base none (some fi) imgs mb).FileSize = base.FileSize ∧
      (assignMediaFieldsToContext base none (some fi) imgs mb).Transcript = base.Transcript) ∧
    ((assignMediaFieldsToContext base (some m) none imgs mb).FileName = base.FileName ∧
      (assignMediaFieldsToContext base (some m) none imgs mb).FileSize = base.FileSize ∧
      (assignMediaFieldsToContext base (some m) none imgs mb).Transcript = base.Transcript) := by
  unfold assignMediaFieldsToContext
  simp only [setMediaBody_spec, setFileFields_none, setFileFields_some,
    setTranscriptField_none, setTranscriptField_some]
  split_ifs <;> simp_all

/-- C4: `Body`, `RawBody` and `CommandBody` are overwritten — all three in
lock-step, with `mediaBody`'s value — exactly when `mediaBody` is a
non-empty string and at least one of the two media branches fires; in every
other case all three keep the base's values. -/
theorem claim4_body_lockstep (base : InboundContext) (dm : Option DownloadedFile)
    (efi : Option ExtractedFileInfo) (imgs : List DownloadedFile) (mb : Option String) :
    ((assignMediaFieldsToContext base dm efi imgs mb).Body,
      (assignMediaFieldsToContext base dm efi imgs mb).RawBody,
      (assignMediaFieldsToContext base dm efi imgs mb).CommandBody) =
    if optStrTruthy mb ∧ (dm.isSome ∨ imgs.length > 0) then
      (mb.getD "", mb.getD "", mb.getD "")
    else (base.Body, base.RawBody, base.CommandBody) := by
  unfold assignMediaFieldsToContext
  rcases dm with _ | m <;> rcases efi with _ | fi <;>
    simp only [setMediaBody_spec, setFileFields_none, setFileFields_some,
      setTranscriptField_none, setTranscriptField_some] <;>
    split_ifs <;> simp_all

/-- C5: `MediaPath`/`MediaType` are set to the downloaded file's local path
and content-type exactly when `downloadedMedia` is present; otherwise they
keep the base's values. -/
theorem claim5_single_media_fields (base : InboundContext) (dm : Option DownloadedFile)
    (efi : Option ExtractedFileInfo) (imgs : List DownloadedFile) (mb : Option String) :
    ((assignMediaFieldsToContext base dm efi imgs mb).MediaPath,
      (assignMediaFieldsToContext base dm efi imgs mb).MediaType) =
    match dm with
    | some m => (some m.path, some m.contentType)
    | none => (base.MediaPath, base.MediaType) := by
  unfold assignMediaFieldsToContext
  rcases dm with _ | m <;> rcases efi with _ | fi <;>
    simp only [setMediaBody_spec, setFileFields_none, setFileFields_some,
      setTranscriptField_none, setTranscriptField_some] <;>
    split_ifs <;> simp_all

/-- C6: for a non-empty image list, `MediaPaths`/`MediaTypes` are set to the
ordered path/content-type projections — same length as the input, with the
`i`-th entries taken from the `i`-th input element; for an empty list both
fields keep the base's values. -/
theorem claim6_rich_text_projections (base : InboundContext) (dm : Option DownloadedFile)
    (efi : Option ExtractedFileInfo) (imgs : List DownloadedFile) (mb : Option String) :
    (((assignMediaFieldsToContext base dm efi imgs mb).MediaPaths,
      (assignMediaFieldsToContext base dm efi imgs mb).MediaTypes) =
      if imgs.length > 0 then
        (some (imgs.map DownloadedFile.path), some (imgs.map DownloadedFile.contentType))
      else (base.MediaPaths, base.MediaTypes)) ∧
    (imgs.map DownloadedFile.path).length = imgs.length ∧
    (imgs.map DownloadedFile.contentType).length = imgs.length ∧
    (∀ i : Nat,
      (imgs.map DownloadedFile.path).get? i = (imgs.get? i).map DownloadedFile.path ∧
      (imgs.map DownloadedFile.contentType).get? i =
        (imgs.get? i).map DownloadedFile.contentType) := by
  refine ⟨?_, by simp, by simp,
    fun i => ⟨by simp [List.getElem?_map], by simp [List.getElem?_map]⟩⟩
  unfold assignMediaFieldsToContext
  rcases dm with _ | m <;> rcases efi with _ | fi <;>
    simp only [setMediaBody_spec, setFileFields_none, setFileFields_some,
      setTranscriptField_none, setTranscriptField_some] <;>
    split_ifs <;> simp_all

/-! ## Claims about the file classifier -/

/-- C7: `resolveExtension` resolves in the order (1) the filename's own
extension — the lowercased substring from the last `'.'` to the end, where a
name with no `'.'` or a trailing `'.'` has no extension (`specExtOfName`) —
taking precedence over the content-type; else (2) the content-type table on
the normalized content-type; else (3) `".bin"`. -/
theorem claim7_resolveExtension_order (ct : String) (fn : String) :
    resolveExtension ct (some fn) =
      (match specExtOfName fn with
       | some e => e
       | none =>
         match List.lookup (normalizeMime ct) MIME_TO_EXTENSION with
         | some e => e
         | none => ".bin") ∧
    resolveExtension ct none =
      (match List.lookup (normalizeMime ct) MIME_TO_EXTENSION with
       | some e => e
       | none => ".bin") := by
  constructor
  · cases hspec : specExtOfName fn with
    | none =>
      have hext : extractExtension fn = "" := by
        rw [extractExtension_eq_spec, hspec]
        rfl
      have h0 : strTruthy "" = false := rfl
      by_cases hfn : strTruthy fn = true
      · simp [resolveExtension, hfn, hext, h0]
      · simp [resolveExtension, hfn]
    | some e =>
      obtain ⟨he, hfne⟩ := specExtOfName_some_ne hspec
      have hext : extractExtension fn = e := by
        rw [extractExtension_eq_spec, hspec]
        rfl
      have hfn : strTruthy fn = true := by simp [strTruthy, hfne]
      have heT : strTruthy e = true := by simp [strTruthy, he]
      simp [resolveExtension, hfn, hext, heT]
  · rfl

/-- C8 counterexample: the claim's normalization (truncate at `';'`,
lowercase, no trim) mispredicts the code on a content-type with whitespace
around its first segment: the code trims and classifies
`"text/plain ; charset=utf-8"` as `document`; the claim's algorithm yields
`other`. -/
theorem claim8_counterexample :
    claimResolveFileCategory "text/plain ; charset=utf-8" none = FileCategory.other ∧
    resolveFileCategory "text/plain ; charset=utf-8" none = FileCategory.document := by
  decide

/-- C8 (amended): `resolveFileCategory` computes exactly the claim's
resolution order — (1) `image/`/`audio/`/`video/` prefix, (2) exact
document/archive/code content-type table, (3) the filename's lowercased
trailing extension in the extension table, (4) `other` — where the
normalization truncates at the first `';'`, trims surrounding whitespace,
and lowercases. -/
theorem claim8_resolveFileCategory_order (ct : String) (fn : Option String) :
    resolveFileCategory ct fn = claimResolveFileCategoryTrimmed ct fn := by
  simp only [resolveFileCategory, claimResolveFileCategoryTrimmed]
  split_ifs <;> try rfl
  cases hlk : List.lookup (normalizeMime ct) CATEGORY_BY_MIME with
  | some c => rfl
  | none =>
    cases fn with
    | none => rfl
    | some f =>
      cases hspec : specExtOfName f with
      | none =>
        have hext : extractExtension f = "" := by
          rw [extractExtension_eq_spec, hspec]
          rfl
        have h0 : strTruthy "" = false := rfl
        by_cases hf : strTruthy f = true
        · simp [hf, hext, h0, hspec]
        · simp [hf, hspec]
      | some e =>
        obtain ⟨he, hfne⟩ := specExtOfName_some_ne hspec
        have hext : extractExtension f = e := by
          rw [extractExtension_eq_spec, hspec]
          rfl
        have hf : strTruthy f = true := by simp [strTruthy, hfne]
        have heT : strTruthy e = true := by simp [strTruthy, he]
        simp [hf, hext, heT, hspec]

/-- C10 counterexample: the fileName `"."` has `'.'` as its first character
and no later `'.'`, but its last dot is also its trailing character, so the
code treats it as having no extension: `resolveExtension "image/png"
(some ".")` is `".png"` (the content-type's extension), not the whole
name `"."`. -/
theorem claim10_counterexample :
    (".").data = ['.'] ∧
    resolveExtension "image/png" (some ".") = ".png" ∧
    (".png" : String) ≠ "." := by
  decide

/-- C10 (amended): for a fileName of length at least 2 whose first character
is `'.'` and that contains no later `'.'`, the last-dot position is 0 and is
not trailing, so the entire lowercased name is the extension:
`resolveExtension` returns the whole lowercased name for every contentType,
and — when the content-type matches neither the prefix rules nor the exact
table — `resolveFileCategory` looks the whole lowercased name up in the
extension-to-category table. -/
theorem claim10_leading_dot_name (ct : String) (rest : List Char)
    (hne : rest ≠ []) (hnd : '.' ∉ rest) :
    resolveExtension ct (some (String.mk ('.' :: rest))) =
      String.mk (('.' :: rest).map Char.toLower) ∧
    (startsWithStr (normalizeMime ct) "image/" = false →
      startsWithStr (normalizeMime ct) "audio/" = false →
      startsWithStr (normalizeMime ct) "video/" = false →
      List.lookup (normalizeMime ct) CATEGORY_BY_MIME = none →
      resolveFileCategory ct (some (String.mk ('.' :: rest))) =
        (List.lookup (String.mk (('.' :: rest).map Char.toLower))
          CATEGORY_BY_EXTENSION).getD FileCategory.other) := by
  have hconsT : ∀ (c : Char) (cs : List Char), strTruthy (String.mk (c :: cs)) = true := by
    intro c cs
    have hne2 : String.mk (c :: cs) ≠ "" := by
      intro h
      have hd := congrArg String.data h
      simp at hd
    simp [strTruthy, hne2]
  have hlast : lastIndexOfChar '.' ('.' :: rest) = some 0 := by
    simp [lastIndexOfChar, lastIndexOfChar_eq_none '.' rest hnd]
  have hlen0 : ¬ ((0 : Nat) = rest.length) := fun h0 =>
    hne (List.length_eq_zero.mp h0.symm)
  have hext : extractExtension (String.mk ('.' :: rest)) =
      String.mk (('.' :: rest).map Char.toLower) := by
    simp only [extractExtension]
    rw [hlast]
    simp [hlen0]
  have hfn := hconsT '.' rest
  have hextT : strTruthy (String.mk (('.' :: rest).map Char.toLower)) = true :=
    hconsT (Char.toLower '.') (rest.map Char.toLower)
  have hextT2 : strTruthy (String.mk ('.' :: rest.map Char.toLower)) = true :=
    hconsT '.' (rest.map Char.toLower)
  constructor
  · simp [resolveExtension, hfn, hext, hextT, hextT2]
  · intro p1 p2 p3 hlk
    simp only [resolveFileCategory, p1, p2, p3, hlk, hfn, hext, hextT, if_true,
      Bool.false_eq_true, if_false]
    cases List.lookup (String.mk (('.' :: rest).map Char.toLower)) CATEGORY_BY_EXTENSION with
    | some c => rfl
    | none => rfl

theorem claim10_leading_dot_name_witness :
    (['z', 'i', 'p'] : List Char) ≠ [] ∧
    ('.' ∉ (['z', 'i', 'p'] : List Char)) ∧
    resolveExtension "application/octet-stream" (some (String.mk ('.' :: ['z', 'i', 'p']))) =
      String.mk (('.' :: ['z', 'i', 'p']).map Char.toLower) ∧
    resolveFileCategory "application/octet-stream"
        (some (String.mk ('.' :: ['z', 'i', 'p']))) =
      (List.lookup (String.mk (('.' :: ['z', 'i', 'p']).map Char.toLower))
        CATEGORY_BY_EXTENSION).getD FileCategory.other :=
  ⟨by decide, by decide,
    (claim10_leading_dot_name "application/octet-stream" ['z', 'i', 'p']
      (by decide) (by decide)).1,
    (claim10_leading_dot_name "application/octet-stream" ['z', 'i', 'p']
      (by decide) (by decide)).2 (by decide) (by decide) (by decide) (by decide)⟩

example : resolveFileCategory "application/octet-stream" (some ".zip") =
    FileCategory.archive := by decide

example :
    parseRichTextMessage parseFail
      (JsValue.obj [("msgtype", JsValue.str "richText"),
        ("content", JsValue.obj [("richText", JsValue.arr
          [JsValue.obj [("type", JsValue.str "text"), ("text", JsValue.str "Hi")],
           JsValue.obj [("type", JsValue.str "at"), ("userId", JsValue.str "u1")],
           JsValue.obj [("type", JsValue.str "picture"),
             ("downloadCode", JsValue.str "c1")]])])]) =
      some { textParts := ["Hi"], imageCodes := ["c1"], mentions := ["u1"] } := rfl

example :
    extractFileFromMessage parseFail
      (JsValue.obj [("msgtype", JsValue.str "picture"),
        ("content", JsValue.obj [("pictureDownloadCode", JsValue.str "pic-1")])]) =
      some { downloadCode := "pic-1", msgType := MediaMsgType.picture } := rfl

/-- C9 (spec-modelled): both parsers return `null` on every malformed input
— non-object inputs, unsupported or non-media tags, malformed serialized
content payloads, and missing download codes — for every behavior of the
underlying serialized-string parser. Exceptions cannot escape: both
functions are total into `Option`. -/
theorem claim9_parsers_null_on_malformed (parse : String → Option JsValue)
    (v : JsValue) (fs : List (String × JsValue)) (tag s : String) :
    ((∀ gs, v ≠ JsValue.obj gs) →
      extractFileFromMessage parse v = none ∧ parseRichTextMessage parse v = none) ∧
    ((tag ≠ "picture" ∧ tag ≠ "video" ∧ tag ≠ "audio" ∧ tag ≠ "file") →
      extractFileFromMessage parse
        (JsValue.obj (("msgtype", JsValue.str tag) :: fs)) = none) ∧
    (tag ≠ "richText" →
      parseRichTextMessage parse
        (JsValue.obj (("msgtype", JsValue.str tag) :: fs)) = none) ∧
    (parse s = none →
      extractFileFromMessage parse
        (JsValue.obj [("msgtype", JsValue.str "picture"),
          ("content", JsValue.str s)]) = none ∧
      parseRichTextMessage parse
        (JsValue.obj [("msgtype", JsValue.str "richText"),
          ("content", JsValue.str s)]) = none) ∧
    extractFileFromMessage parse
      (JsValue.obj [("msgtype", JsValue.str "picture"),
        ("content", JsValue.obj [])]) = none := by
  refine ⟨fun h => ⟨?_, ?_⟩, fun h => ?_, fun h => ?_, fun h => ⟨?_, ?_⟩, ?_⟩
  · cases v
    case obj gs => exact absurd rfl (h gs)
    all_goals rfl
  · cases v
    case obj gs => exact absurd rfl (h gs)
    all_goals rfl
  · obtain ⟨h1, h2, h3, h4⟩ := h
    simp [extractFileFromMessage, getField, List.find?, parseMediaMsgType, h1, h2, h3, h4]
  · simp [parseRichTextMessage, getField, List.find?, h]
  · simp [extractFileFromMessage, getField, List.find?, parseMediaMsgType, h]
  · simp [parseRichTextMessage, getField, List.find?, h]
  · rfl

theorem claim9_parsers_null_on_malformed_witness :
    extractFileFromMessage parseFail (JsValue.str "string") = none ∧
    parseRichTextMessage parseFail (JsValue.str "string") = none ∧
    extractFileFromMessage parseFail
      (JsValue.obj [("msgtype", JsValue.str "text")]) = none ∧
    parseRichTextMessage parseFail
      (JsValue.obj [("msgtype", JsValue.str "text")]) = none ∧
    extractFileFromMessage parseFail
      (JsValue.obj [("msgtype", JsValue.str "picture"),
        ("content", JsValue.str "not json")]) = none ∧
    parseRichTextMessage parseFail
      (JsValue.obj [("msgtype", JsValue.str "richText"),
        ("content", JsValue.str "not json")]) = none ∧
    extractFileFromMessage parseFail
      (JsValue.obj [("msgtype", JsValue.str "picture"),
        ("content", JsValue.obj [])]) = none := by
  have h := claim9_parsers_null_on_malformed parseFail (JsValue.str "string") []
    "text" "not json"
  have hno : ∀ gs, JsValue.str "string" ≠ JsValue.obj gs := fun gs hgs =>
    JsValue.noConfusion hgs
  have htag : ("text" ≠ "picture" ∧ "text" ≠ "video" ∧ "text" ≠ "audio" ∧
      "text" ≠ "file") := by
    refine ⟨?_, ?_, ?_, ?_⟩ <;> decide
  exact ⟨(h.1 hno).1, (h.1 hno).2, h.2.1 htag, h.2.2.1 (by decide),
    (h.2.2.2.1 rfl).1, (h.2.2.2.1 rfl).2, h.2.2.2.2⟩

end OpenclawChina
